import Mathlib

/-!
Shallow embedding of `src/main.py` (jverhoeks/s3-compare): an S3 bucket
comparison tool.  The S3 service is modelled by explicit inputs: a paginated
listing (a list of pages, each possibly failing) and a hash oracle giving the
result of `_calculate_md5` per side and key (`none` models an I/O error).
All other code is translated directly from the source.
-/

namespace S3Compare

/-- Metadata stored per object key, as built by `get_bucket_objects`
(`{'Size': ..., 'ETag': ..., 'LastModified': ...}`). -/
structure ObjMeta where
  size : Nat
  etag : String
  lastModified : Nat
deriving DecidableEq

/-- A Python dict from key to metadata: a finite key set together with the
metadata function (meaningful on `keys` only). -/
structure BucketSnapshot where
  keys : Finset String
  meta : String → ObjMeta

/-- The outcome a key is classified into by the loop body of
`compare_buckets`; the first five are the difference-dict categories, and
`matched` is the `stats['matched_files'] += 1` branch. -/
inductive Outcome where
  | extra_in_target
  | missing_in_target
  | size_mismatch
  | etag_mismatch
  | content_mismatch
  | matched
deriving DecidableEq, Fintype

/-- The results of `_calculate_md5` for each side, per key; `none` models the
`except` branch that logs and returns `None` on any stream error. -/
structure HashOracle where
  sourceHash : String → Option String
  targetHash : String → Option String

/-- `S3BucketComparer._compare_file_hashes`: compute both MD5 results; if
either is `None` return `False`, else compare for equality. -/
def compare_file_hashes (hOracle : HashOracle) (key : String) : Bool :=
  let source_hash := hOracle.sourceHash key
  let target_hash := hOracle.targetHash key
  if source_hash = none ∨ target_hash = none then
    false
  else
    decide (source_hash = target_hash)

/-- The per-key decision chain of the loop body in
`S3BucketComparer.compare_buckets` (lines 112-132 of `src/main.py`). -/
def classifyKey (source_objects target_objects : BucketSnapshot)
    (ignore_etags compare_hashes : Bool) (hOracle : HashOracle)
    (key : String) : Outcome :=
  if key ∉ source_objects.keys then
    .extra_in_target
  else if key ∉ target_objects.keys then
    .missing_in_target
  else
    let source_obj := source_objects.meta key
    let target_obj := target_objects.meta key
    if source_obj.size ≠ target_obj.size then
      .size_mismatch
    else if ¬ignore_etags ∧ source_obj.etag ≠ target_obj.etag then
      .etag_mismatch
    else if compare_hashes ∧ ¬compare_file_hashes hOracle key then
      .content_mismatch
    else
      .matched

/-- The loop state of `compare_buckets`: `differences = defaultdict(set)`
(the function view), `touched` records which categories the dict actually
holds (a `defaultdict` materialises an entry exactly when accessed), and the
`stats['matched_files']` counter. -/
structure CompareState where
  differences : Outcome → Finset String
  touched : Finset Outcome
  matched_files : Nat

/-- `differences = defaultdict(set)`, `stats['matched_files'] = 0`. -/
def initState : CompareState := ⟨fun _ => ∅, ∅, 0⟩

/-- `differences[c].add(key)`: the access materialises entry `c` and adds
`key` to its set. -/
def addDiff (st : CompareState) (c : Outcome) (key : String) : CompareState :=
  { st with
    differences := Function.update st.differences c (insert key (st.differences c)),
    touched := insert c st.touched }

/-- One iteration of the `for key in all_keys` loop of `compare_buckets`. -/
def processKey (source_objects target_objects : BucketSnapshot)
    (ignore_etags compare_hashes : Bool) (hOracle : HashOracle)
    (st : CompareState) (key : String) : CompareState :=
  match classifyKey source_objects target_objects ignore_etags compare_hashes hOracle key with
  | .matched => { st with matched_files := st.matched_files + 1 }
  | c => addDiff st c key

/-- `stats` dict of `compare_buckets`. -/
structure Stats where
  total_files : Nat
  matched_files : Nat
deriving DecidableEq

/-- The pair returned by `compare_buckets`: the differences dict
(`differences` restricted to the `touched` categories) and the stats dict. -/
structure CompareResult where
  differences : Outcome → Finset String
  touched : Finset Outcome
  stats : Stats

/-- `all_keys = set(source_objects.keys()) | set(target_objects.keys())`. -/
def all_keys (source_objects target_objects : BucketSnapshot) : Finset String :=
  source_objects.keys ∪ target_objects.keys

/-- `S3BucketComparer.compare_buckets` after the two snapshots are in hand:
iterate over `all_keys` (a set; iteration order is immaterial, here sorted),
classify each key, and return the differences and stats. -/
def compare_buckets (source_objects target_objects : BucketSnapshot)
    (ignore_etags compare_hashes : Bool) (hOracle : HashOracle) : CompareResult :=
  let keys := (all_keys source_objects target_objects).sort (· ≤ ·)
  let st := keys.foldl
    (processKey source_objects target_objects ignore_etags compare_hashes hOracle)
    initState
  ⟨st.differences, st.touched,
    ⟨(all_keys source_objects target_objects).card, st.matched_files⟩⟩

/-- One record of a `list_objects_v2` page's `Contents`. -/
structure SrcObj where
  Key : String
  Size : Nat
  ETag : String
  LastModified : Nat
deriving DecidableEq

/-- One page of the paginator; `Contents = none` models a page dict without a
`'Contents'` entry (empty bucket). -/
structure Page where
  Contents : Option (List SrcObj)
deriving DecidableEq

/-- The empty `objects = {}` dict. -/
def emptyObjects : BucketSnapshot := ⟨∅, fun _ => ⟨0, "", 0⟩⟩

/-- `objects[obj['Key']] = {'Size': ..., 'ETag': ..., 'LastModified': ...}`. -/
def insertObject (objects : BucketSnapshot) (obj : SrcObj) : BucketSnapshot :=
  ⟨insert obj.Key objects.keys,
   Function.update objects.meta obj.Key ⟨obj.Size, obj.ETag, obj.LastModified⟩⟩

/-- Process one page of the listing: skip it when `'Contents'` is absent,
else insert every record. -/
def processPage (objects : BucketSnapshot) (page : Page) : BucketSnapshot :=
  match page.Contents with
  | none => objects
  | some contents => contents.foldl insertObject objects

/-- The `for page in paginator.paginate(...)` loop of `get_bucket_objects`:
an `.error` element models the paginator raising at that point; the partial
`objects` dict built so far is discarded and the exception re-raised. -/
def get_bucket_objects_loop (objects : BucketSnapshot) :
    List (Except Unit Page) → Except Unit BucketSnapshot
  | [] => .ok objects
  | .error e :: _ => .error e
  | .ok page :: rest => get_bucket_objects_loop (processPage objects page) rest

/-- `S3BucketComparer.get_bucket_objects`: drain the paginated listing into a
dict, re-raising any listing error. -/
def get_bucket_objects (pages : List (Except Unit Page)) :
    Except Unit BucketSnapshot :=
  get_bucket_objects_loop emptyObjects pages

/-- `main` (lines 147-179 of `src/main.py`): run the comparison; exit 0 iff
`not any(differences.values())`, exit 1 on differences or on any exception
(in particular a listing failure). -/
def main_run (source_pages target_pages : List (Except Unit Page))
    (ignore_etags compare_hashes : Bool) (hOracle : HashOracle) : Nat :=
  match get_bucket_objects source_pages, get_bucket_objects target_pages with
  | .ok source_objects, .ok target_objects =>
      let r := compare_buckets source_objects target_objects ignore_etags compare_hashes hOracle
      if ∀ c ∈ r.touched, r.differences c = ∅ then 0 else 1
  | _, _ => 1

/-- The set of keys classified into outcome `c`: the filter view of the loop,
used to characterise `compare_buckets`. -/
def outcomeSet (source_objects target_objects : BucketSnapshot)
    (ignore_etags compare_hashes : Bool) (hOracle : HashOracle)
    (c : Outcome) : Finset String :=
  (all_keys source_objects target_objects).filter
    (fun k => classifyKey source_objects target_objects ignore_etags compare_hashes hOracle k = c)

/-- Swapping the roles of source and target exchanges the two absence
categories and fixes the rest. -/
def swapOutcome : Outcome → Outcome
  | .missing_in_target => .extra_in_target
  | .extra_in_target => .missing_in_target
  | c => c

/-- The hash oracle seen by a comparer constructed with the two buckets
swapped. -/
def swapOracle (hOracle : HashOracle) : HashOracle :=
  ⟨hOracle.targetHash, hOracle.sourceHash⟩

/-- The keys listed on one page (`{obj['Key'] for obj in page['Contents']}`,
empty when `'Contents'` is absent). -/
def pageKeys (page : Page) : Finset String :=
  match page.Contents with
  | none => ∅
  | some contents => (contents.map SrcObj.Key).toFinset

/-- All keys delivered by an error-free listing. -/
def listedKeys : List Page → Finset String
  | [] => ∅
  | page :: rest => pageKeys page ∪ listedKeys rest

/-! ### Characterisation of the classification fold -/

section FoldLemmas

variable (s t : BucketSnapshot) (ie ch : Bool) (h : HashOracle)

lemma processKey_eq_matched (st : CompareState) (k : String)
    (hcl : classifyKey s t ie ch h k = Outcome.matched) :
    processKey s t ie ch h st k = { st with matched_files := st.matched_files + 1 } := by
  unfold processKey
  rw [hcl]

lemma processKey_eq_addDiff (st : CompareState) (k : String) (c : Outcome)
    (hcl : classifyKey s t ie ch h k = c) (hc : c ≠ Outcome.matched) :
    processKey s t ie ch h st k = addDiff st c k := by
  unfold processKey
  rw [hcl]
  cases c
  · rfl
  · rfl
  · rfl
  · rfl
  · rfl
  · exact absurd rfl hc

lemma addDiff_differences (st : CompareState) (c : Outcome) (k : String) (c' : Outcome) :
    (addDiff st c k).differences c' =
      if c' = c then insert k (st.differences c) else st.differences c' := by
  simp [addDiff, Function.update_apply]

lemma processKey_differences_ne (st : CompareState) (k : String) (c : Outcome)
    (hck : classifyKey s t ie ch h k ≠ c) :
    (processKey s t ie ch h st k).differences c = st.differences c := by
  cases hcl : classifyKey s t ie ch h k with
  | matched => rw [processKey_eq_matched s t ie ch h st k hcl]
  | _ =>
    rw [processKey_eq_addDiff s t ie ch h st k _ hcl (by simp), addDiff_differences]
    rw [if_neg]
    intro hc
    exact hck (hc ▸ hcl)

lemma processKey_matched_files (st : CompareState) (k : String) :
    (processKey s t ie ch h st k).matched_files =
      if classifyKey s t ie ch h k = Outcome.matched then st.matched_files + 1
      else st.matched_files := by
  cases hcl : classifyKey s t ie ch h k with
  | matched => rw [processKey_eq_matched s t ie ch h st k hcl, if_pos rfl]
  | _ =>
    rw [processKey_eq_addDiff s t ie ch h st k _ hcl (by simp), if_neg (by simp)]
    rfl

lemma processKey_touched (st : CompareState) (k : String) (c : Outcome) :
    c ∈ (processKey s t ie ch h st k).touched ↔
      c ∈ st.touched ∨
        (c ≠ Outcome.matched ∧ classifyKey s t ie ch h k = c) := by
  cases hcl : classifyKey s t ie ch h k with
  | matched =>
    rw [processKey_eq_matched s t ie ch h st k hcl]
    constructor
    · exact Or.inl
    · rintro (hst | ⟨hcm, hck⟩)
      · exact hst
      · exact absurd hck.symm hcm
  | _ =>
    rw [processKey_eq_addDiff s t ie ch h st k _ hcl (by simp)]
    show c ∈ insert _ st.touched ↔ _
    rw [Finset.mem_insert]
    constructor
    · rintro (hceq | hst)
      · exact Or.inr ⟨by subst hceq; simp, hceq.symm⟩
      · exact Or.inl hst
    · rintro (hst | ⟨hcm, hck⟩)
      · exact Or.inr hst
      · exact Or.inl hck.symm

lemma foldl_differences (l : List String) (st : CompareState) (c : Outcome)
    (hc : c ≠ Outcome.matched) :
    ((l.foldl (processKey s t ie ch h) st).differences) c =
      st.differences c ∪
        (l.filter (fun k => classifyKey s t ie ch h k = c)).toFinset := by
  induction l generalizing st with
  | nil => simp
  | cons k l ih =>
    rw [List.foldl_cons, ih]
    by_cases hck : classifyKey s t ie ch h k = c
    · rw [processKey_eq_addDiff s t ie ch h st k c hck hc, addDiff_differences, if_pos rfl,
        List.filter_cons_of_pos (by simpa using hck), List.toFinset_cons,
        Finset.insert_union, Finset.union_insert]
    · rw [processKey_differences_ne s t ie ch h st k c hck,
        List.filter_cons_of_neg (by simpa using hck)]

lemma foldl_matched_files (l : List String) (st : CompareState) :
    (l.foldl (processKey s t ie ch h) st).matched_files =
      st.matched_files +
        (l.filter (fun k => classifyKey s t ie ch h k = Outcome.matched)).length := by
  induction l generalizing st with
  | nil => simp
  | cons k l ih =>
    rw [List.foldl_cons, ih, processKey_matched_files]
    by_cases hck : classifyKey s t ie ch h k = Outcome.matched
    · rw [if_pos hck, List.filter_cons_of_pos (by simpa using hck), List.length_cons]
      omega
    · rw [if_neg hck, List.filter_cons_of_neg (by simpa using hck)]

lemma foldl_touched (l : List String) (st : CompareState) (c : Outcome) :
    c ∈ (l.foldl (processKey s t ie ch h) st).touched ↔
      c ∈ st.touched ∨
        (c ≠ Outcome.matched ∧ ∃ k ∈ l, classifyKey s t ie ch h k = c) := by
  induction l generalizing st with
  | nil => simp
  | cons k l ih =>
    rw [List.foldl_cons, ih, processKey_touched]
    simp only [List.mem_cons]
    constructor
    · rintro (⟨hst | ⟨hcm, hck⟩⟩ | ⟨hcm, x, hx, hcx⟩)
      · exact Or.inl hst
      · exact Or.inr ⟨hcm, k, Or.inl rfl, hck⟩
      · exact Or.inr ⟨hcm, x, Or.inr hx, hcx⟩
    · rintro (hst | ⟨hcm, x, hx | hx, hcx⟩)
      · exact Or.inl (Or.inl hst)
      · exact Or.inl (Or.inr ⟨hcm, hx ▸ hcx⟩)
      · exact Or.inr ⟨hcm, x, hx, hcx⟩

lemma foldl_differences_matched (l : List String) (st : CompareState) :
    ((l.foldl (processKey s t ie ch h) st).differences) Outcome.matched =
      st.differences Outcome.matched := by
  induction l generalizing st with
  | nil => rfl
  | cons k l ih =>
    rw [List.foldl_cons, ih]
    by_cases hck : classifyKey s t ie ch h k = Outcome.matched
    · rw [processKey_eq_matched s t ie ch h st k hck]
    · rw [processKey_differences_ne s t ie ch h st k _ hck]

end FoldLemmas

section Characterisation

variable (s t : BucketSnapshot) (ie ch : Bool) (h : HashOracle)

lemma compare_buckets_differences (c : Outcome) (hc : c ≠ Outcome.matched) :
    (compare_buckets s t ie ch h).differences c = outcomeSet s t ie ch h c := by
  show ((((all_keys s t).sort (· ≤ ·)).foldl
      (processKey s t ie ch h) initState).differences) c = _
  rw [foldl_differences s t ie ch h _ _ _ hc]
  rw [outcomeSet]
  ext x
  simp [initState, Finset.mem_sort]

lemma compare_buckets_differences_matched :
    (compare_buckets s t ie ch h).differences Outcome.matched = ∅ := by
  show ((((all_keys s t).sort (· ≤ ·)).foldl
      (processKey s t ie ch h) initState).differences) Outcome.matched = _
  rw [foldl_differences_matched]
  rfl

lemma compare_buckets_matched_files :
    (compare_buckets s t ie ch h).stats.matched_files =
      (outcomeSet s t ie ch h Outcome.matched).card := by
  show (((all_keys s t).sort (· ≤ ·)).foldl
      (processKey s t ie ch h) initState).matched_files = _
  rw [foldl_matched_files]
  have hz : initState.matched_files = 0 := rfl
  rw [hz, Nat.zero_add]
  have hnd : (((all_keys s t).sort (· ≤ ·)).filter
      (fun k => classifyKey s t ie ch h k = Outcome.matched)).Nodup :=
    ((all_keys s t).sort_nodup (· ≤ ·)).filter _
  rw [← List.toFinset_card_of_nodup hnd]
  congr 1
  ext x
  simp [outcomeSet, Finset.mem_sort]

lemma compare_buckets_total_files :
    (compare_buckets s t ie ch h).stats.total_files = (all_keys s t).card := rfl

lemma compare_buckets_touched (c : Outcome) :
    c ∈ (compare_buckets s t ie ch h).touched ↔
      c ≠ Outcome.matched ∧ (outcomeSet s t ie ch h c).Nonempty := by
  show c ∈ (((all_keys s t).sort (· ≤ ·)).foldl
      (processKey s t ie ch h) initState).touched ↔ _
  rw [foldl_touched]
  simp [initState, outcomeSet, Finset.Nonempty, Finset.mem_sort]

end Characterisation

/-! ### Per-outcome characterisation of the decision chain -/

section ClassifyIff

variable (s t : BucketSnapshot) (ie ch : Bool) (h : HashOracle) (k : String)

lemma classifyKey_extra_iff :
    classifyKey s t ie ch h k = Outcome.extra_in_target ↔ k ∉ s.keys := by
  simp only [classifyKey]
  split_ifs <;> simp_all

lemma classifyKey_missing_iff :
    classifyKey s t ie ch h k = Outcome.missing_in_target ↔
      k ∈ s.keys ∧ k ∉ t.keys := by
  simp only [classifyKey]
  split_ifs <;> simp_all

lemma classifyKey_size_iff :
    classifyKey s t ie ch h k = Outcome.size_mismatch ↔
      k ∈ s.keys ∧ k ∈ t.keys ∧ (s.meta k).size ≠ (t.meta k).size := by
  simp only [classifyKey]
  split_ifs <;> simp_all

lemma classifyKey_etag_iff :
    classifyKey s t ie ch h k = Outcome.etag_mismatch ↔
      k ∈ s.keys ∧ k ∈ t.keys ∧ (s.meta k).size = (t.meta k).size ∧
        ie = false ∧ (s.meta k).etag ≠ (t.meta k).etag := by
  simp only [classifyKey]
  split_ifs <;> simp_all

lemma classifyKey_content_iff :
    classifyKey s t ie ch h k = Outcome.content_mismatch ↔
      k ∈ s.keys ∧ k ∈ t.keys ∧ (s.meta k).size = (t.meta k).size ∧
        (ie = true ∨ (s.meta k).etag = (t.meta k).etag) ∧
        ch = true ∧ compare_file_hashes h k = false := by
  cases ie <;> cases ch <;>
    · simp only [classifyKey]
      split_ifs <;> simp_all

lemma classifyKey_matched_iff :
    classifyKey s t ie ch h k = Outcome.matched ↔
      k ∈ s.keys ∧ k ∈ t.keys ∧ (s.meta k).size = (t.meta k).size ∧
        (ie = true ∨ (s.meta k).etag = (t.meta k).etag) ∧
        (ch = false ∨ compare_file_hashes h k = true) := by
  cases ie <;> cases ch <;>
    · simp only [classifyKey]
      split_ifs <;> simp_all

end ClassifyIff

/-! ### Listing lemmas -/

section ListingLemmas

lemma insertObject_keys (objects : BucketSnapshot) (obj : SrcObj) :
    (insertObject objects obj).keys = insert obj.Key objects.keys := rfl

lemma foldl_insertObject_keys (contents : List SrcObj) (objects : BucketSnapshot) :
    (contents.foldl insertObject objects).keys =
      objects.keys ∪ (contents.map SrcObj.Key).toFinset := by
  induction contents generalizing objects with
  | nil => simp
  | cons obj rest ih =>
    rw [List.foldl_cons, ih, insertObject_keys, List.map_cons, List.toFinset_cons,
      Finset.insert_union, Finset.union_insert]

lemma processPage_keys (objects : BucketSnapshot) (page : Page) :
    (processPage objects page).keys = objects.keys ∪ pageKeys page := by
  cases page with
  | mk contents =>
    cases contents with
    | none => simp [processPage, pageKeys]
    | some l => simp [processPage, pageKeys, foldl_insertObject_keys]

lemma get_bucket_objects_loop_ok (pagesOk : List Page) (objects : BucketSnapshot) :
    get_bucket_objects_loop objects (pagesOk.map Except.ok) =
      Except.ok (pagesOk.foldl processPage objects) := by
  induction pagesOk generalizing objects with
  | nil => rfl
  | cons page rest ih =>
    rw [List.map_cons, List.foldl_cons]
    exact ih (processPage objects page)

lemma foldl_processPage_keys (pagesOk : List Page) (objects : BucketSnapshot) :
    (pagesOk.foldl processPage objects).keys = objects.keys ∪ listedKeys pagesOk := by
  induction pagesOk generalizing objects with
  | nil => simp [listedKeys]
  | cons page rest ih =>
    rw [List.foldl_cons, ih, processPage_keys, listedKeys, Finset.union_assoc]

lemma get_bucket_objects_loop_error (pre : List Page) (tail : List (Except Unit Page))
    (objects : BucketSnapshot) :
    get_bucket_objects_loop objects (pre.map Except.ok ++ Except.error () :: tail) =
      Except.error () := by
  induction pre generalizing objects with
  | nil => rfl
  | cons page rest ih =>
    rw [List.map_cons, List.cons_append]
    exact ih (processPage objects page)

end ListingLemmas

/-! ### Source/target swap lemmas -/

section SwapLemmas

lemma compare_file_hashes_swap (hOracle : HashOracle) (k : String) :
    compare_file_hashes (swapOracle hOracle) k = compare_file_hashes hOracle k := by
  cases hs : hOracle.sourceHash k <;> cases ht : hOracle.targetHash k <;>
    simp [compare_file_hashes, swapOracle, hs, ht, eq_comm]

lemma classifyKey_swap (s t : BucketSnapshot) (ie ch : Bool) (hOracle : HashOracle)
    (k : String) (hk : k ∈ all_keys s t) :
    classifyKey t s ie ch (swapOracle hOracle) k =
      swapOutcome (classifyKey s t ie ch hOracle k) := by
  rw [all_keys, Finset.mem_union] at hk
  by_cases h1 : k ∈ s.keys <;> by_cases h2 : k ∈ t.keys
  · by_cases hsz : (s.meta k).size = (t.meta k).size
    · by_cases hpass : ie = true ∨ (s.meta k).etag = (t.meta k).etag
      · have hpass' : ie = true ∨ (t.meta k).etag = (s.meta k).etag := by
          rcases hpass with hp | hp
          · exact Or.inl hp
          · exact Or.inr hp.symm
        by_cases hmatch : ch = false ∨ compare_file_hashes hOracle k = true
        · have e1 : classifyKey s t ie ch hOracle k = Outcome.matched :=
            (classifyKey_matched_iff s t ie ch hOracle k).2 ⟨h1, h2, hsz, hpass, hmatch⟩
          have e2 : classifyKey t s ie ch (swapOracle hOracle) k = Outcome.matched :=
            (classifyKey_matched_iff t s ie ch (swapOracle hOracle) k).2
              ⟨h2, h1, hsz.symm, hpass', by rwa [compare_file_hashes_swap]⟩
          rw [e1, e2]
          rfl
        · push_neg at hmatch
          obtain ⟨hch, hcf⟩ := hmatch
          have hch' : ch = true := by
            cases ch
            · exact absurd rfl hch
            · rfl
          have hcf' : compare_file_hashes hOracle k = false := by
            cases hcfh : compare_file_hashes hOracle k
            · rfl
            · exact absurd hcfh hcf
          have e1 : classifyKey s t ie ch hOracle k = Outcome.content_mismatch :=
            (classifyKey_content_iff s t ie ch hOracle k).2
              ⟨h1, h2, hsz, hpass, hch', hcf'⟩
          have e2 : classifyKey t s ie ch (swapOracle hOracle) k = Outcome.content_mismatch :=
            (classifyKey_content_iff t s ie ch (swapOracle hOracle) k).2
              ⟨h2, h1, hsz.symm, hpass', hch', by rwa [compare_file_hashes_swap]⟩
          rw [e1, e2]
          rfl
      · push_neg at hpass
        obtain ⟨hie, hetag⟩ := hpass
        have hie' : ie = false := by
          cases ie
          · rfl
          · exact absurd rfl hie
        have e1 : classifyKey s t ie ch hOracle k = Outcome.etag_mismatch :=
          (classifyKey_etag_iff s t ie ch hOracle k).2 ⟨h1, h2, hsz, hie', hetag⟩
        have e2 : classifyKey t s ie ch (swapOracle hOracle) k = Outcome.etag_mismatch :=
          (classifyKey_etag_iff t s ie ch (swapOracle hOracle) k).2
            ⟨h2, h1, hsz.symm, hie', fun he => hetag he.symm⟩
        rw [e1, e2]
        rfl
    · have e1 : classifyKey s t ie ch hOracle k = Outcome.size_mismatch :=
        (classifyKey_size_iff s t ie ch hOracle k).2 ⟨h1, h2, hsz⟩
      have e2 : classifyKey t s ie ch (swapOracle hOracle) k = Outcome.size_mismatch :=
        (classifyKey_size_iff t s ie ch (swapOracle hOracle) k).2
          ⟨h2, h1, fun he => hsz he.symm⟩
      rw [e1, e2]
      rfl
  · simp [classifyKey, h1, h2, swapOutcome]
  · simp [classifyKey, h1, h2, swapOutcome]
  · rcases hk with hk | hk
    · exact absurd hk h1
    · exact absurd hk h2

lemma swapOutcome_swapOutcome (c : Outcome) : swapOutcome (swapOutcome c) = c := by
  cases c <;> rfl

lemma swapOutcome_eq_matched_iff (c : Outcome) :
    swapOutcome c = Outcome.matched ↔ c = Outcome.matched := by
  cases c <;> simp [swapOutcome]

lemma outcomeSet_swap (s t : BucketSnapshot) (ie ch : Bool) (hOracle : HashOracle)
    (c : Outcome) :
    outcomeSet t s ie ch (swapOracle hOracle) c =
      outcomeSet s t ie ch hOracle (swapOutcome c) := by
  ext x
  rw [outcomeSet, outcomeSet, Finset.mem_filter, Finset.mem_filter]
  have hall : all_keys t s = all_keys s t := Finset.union_comm _ _
  constructor
  · rintro ⟨hx, hcl⟩
    rw [hall] at hx
    rw [classifyKey_swap s t ie ch hOracle x hx] at hcl
    exact ⟨hx, by rw [← hcl, swapOutcome_swapOutcome]⟩
  · rintro ⟨hx, hcl⟩
    refine ⟨by rw [hall]; exact hx, ?_⟩
    rw [classifyKey_swap s t ie ch hOracle x hx, hcl, swapOutcome_swapOutcome]

end SwapLemmas

/-! ### Equations for main -/

section MainLemmas

lemma main_run_ok (sp tp : List (Except Unit Page)) (s0 t0 : BucketSnapshot)
    (ie ch : Bool) (hOracle : HashOracle)
    (hs : get_bucket_objects sp = Except.ok s0)
    (ht : get_bucket_objects tp = Except.ok t0) :
    main_run sp tp ie ch hOracle =
      if ∀ c ∈ (compare_buckets s0 t0 ie ch hOracle).touched,
          (compare_buckets s0 t0 ie ch hOracle).differences c = ∅ then 0 else 1 := by
  unfold main_run
  rw [hs, ht]

lemma main_run_error_left (sp tp : List (Except Unit Page)) (ie ch : Bool)
    (hOracle : HashOracle) (hs : get_bucket_objects sp = Except.error ()) :
    main_run sp tp ie ch hOracle = 1 := by
  unfold main_run
  rw [hs]

lemma main_run_error_right (sp tp : List (Except Unit Page)) (ie ch : Bool)
    (hOracle : HashOracle) (ht : get_bucket_objects tp = Except.error ()) :
    main_run sp tp ie ch hOracle = 1 := by
  unfold main_run
  rw [ht]
  cases get_bucket_objects sp
  · rfl
  · rfl

lemma not_any_iff (s t : BucketSnapshot) (ie ch : Bool) (hOracle : HashOracle) :
    (∀ c ∈ (compare_buckets s t ie ch hOracle).touched,
        (compare_buckets s t ie ch hOracle).differences c = ∅) ↔
      ∀ c : Outcome, c ≠ Outcome.matched →
        (compare_buckets s t ie ch hOracle).differences c = ∅ := by
  constructor
  · intro hall c hc
    by_cases hmem : c ∈ (compare_buckets s t ie ch hOracle).touched
    · exact hall c hmem
    · rw [compare_buckets_touched] at hmem
      push_neg at hmem
      rw [compare_buckets_differences s t ie ch hOracle c hc]
      rw [← Finset.not_nonempty_iff_eq_empty]
      exact hmem hc
  · intro hall c hmem
    exact hall c ((compare_buckets_touched s t ie ch hOracle c).1 hmem).1

end MainLemmas

/-! ### Claim theorems -/

/-- C1 (counterexample): the claim that a key whose digest computation fails
is "not assigned to a definitive mismatch or match category" is false.  With
both snapshots holding `a` at size 10 and tag `x`, content verification on,
and the source-side MD5 computation failing (`none`), the code places `a` in
the `content_mismatch` category (while indeed not counting it as matched). -/
theorem hash_failure_reported_as_content_mismatch :
    ("a" ∈ (compare_buckets ⟨{"a"}, fun _ => ⟨10, "x", 0⟩⟩ ⟨{"a"}, fun _ => ⟨10, "x", 0⟩⟩
        false true ⟨fun _ => none, fun _ => some "d4"⟩).differences
        Outcome.content_mismatch) ∧
    (compare_buckets ⟨{"a"}, fun _ => ⟨10, "x", 0⟩⟩ ⟨{"a"}, fun _ => ⟨10, "x", 0⟩⟩
        false true ⟨fun _ => none, fun _ => some "d4"⟩).stats.matched_files = 0 := by
  constructor
  · rw [compare_buckets_differences _ _ _ _ _ Outcome.content_mismatch (by decide)]
    decide
  · rw [compare_buckets_matched_files]
    decide

/-- C1 (amended): when content verification is enabled and the digest
computation fails on at least one side of a key that reaches the
verification step, the key is not counted in `matched_files`, and the run is
unaffected otherwise, but the key IS assigned to the definitive
`content_mismatch` category (failure is indistinguishable from inequality). -/
theorem hash_failure_amended (s t : BucketSnapshot) (ie : Bool) (hOracle : HashOracle)
    (k : String)
    (hfail : hOracle.sourceHash k = none ∨ hOracle.targetHash k = none)
    (hks : k ∈ s.keys) (hkt : k ∈ t.keys)
    (hsz : (s.meta k).size = (t.meta k).size)
    (htag : ie = true ∨ (s.meta k).etag = (t.meta k).etag) :
    classifyKey s t ie true hOracle k = Outcome.content_mismatch ∧
    k ∈ (compare_buckets s t ie true hOracle).differences Outcome.content_mismatch ∧
    k ∉ outcomeSet s t ie true hOracle Outcome.matched ∧
    (compare_buckets s t ie true hOracle).stats.matched_files =
      (outcomeSet s t ie true hOracle Outcome.matched).card := by
  have hfc : compare_file_hashes hOracle k = false := by
    rcases hfail with hf | hf <;> simp [compare_file_hashes, hf]
  have hcl : classifyKey s t ie true hOracle k = Outcome.content_mismatch :=
    (classifyKey_content_iff s t ie true hOracle k).2 ⟨hks, hkt, hsz, htag, rfl, hfc⟩
  refine ⟨hcl, ?_, ?_, compare_buckets_matched_files s t ie true hOracle⟩
  · rw [compare_buckets_differences s t ie true hOracle Outcome.content_mismatch (by decide),
      outcomeSet, Finset.mem_filter]
    exact ⟨Finset.mem_union_left _ hks, hcl⟩
  · rw [outcomeSet, Finset.mem_filter]
    rintro ⟨_, hm⟩
    rw [hcl] at hm
    exact Outcome.noConfusion hm

/-- C1 (witness for the amended theorem). -/
theorem hash_failure_amended_witness :
    classifyKey ⟨{"a"}, fun _ => ⟨10, "x", 0⟩⟩ ⟨{"a"}, fun _ => ⟨10, "x", 0⟩⟩ false true
        ⟨fun _ => none, fun _ => some "d4"⟩ "a" = Outcome.content_mismatch :=
  (hash_failure_amended ⟨{"a"}, fun _ => ⟨10, "x", 0⟩⟩ ⟨{"a"}, fun _ => ⟨10, "x", 0⟩⟩ false
    ⟨fun _ => none, fun _ => some "d4"⟩ "a" (Or.inl rfl) (by decide) (by decide) rfl
    (Or.inr rfl)).1

/-- C2: `total_files` is the cardinality of the union of the two keyspaces,
every key of the union lies in exactly one outcome class, the returned
difference sets are exactly the non-matched classes, and `matched_files`
plus the sizes of all non-matched categories equals `total_files`. -/
theorem classification_totals_invariant (s t : BucketSnapshot) (ie ch : Bool)
    (hOracle : HashOracle) :
    (compare_buckets s t ie ch hOracle).stats.total_files = (all_keys s t).card ∧
    (∀ k ∈ all_keys s t, ∃! c : Outcome, k ∈ outcomeSet s t ie ch hOracle c) ∧
    (∀ c : Outcome, c ≠ Outcome.matched →
      (compare_buckets s t ie ch hOracle).differences c = outcomeSet s t ie ch hOracle c) ∧
    (compare_buckets s t ie ch hOracle).stats.matched_files +
        ∑ c ∈ Finset.univ.erase Outcome.matched,
          ((compare_buckets s t ie ch hOracle).differences c).card =
      (compare_buckets s t ie ch hOracle).stats.total_files := by
  refine ⟨compare_buckets_total_files s t ie ch hOracle, ?_, ?_, ?_⟩
  · intro k hk
    refine ⟨classifyKey s t ie ch hOracle k, ?_, ?_⟩
    · simp only [outcomeSet, Finset.mem_filter]
      exact ⟨hk, trivial⟩
    · intro c hc
      simp only [outcomeSet, Finset.mem_filter] at hc
      exact hc.2.symm
  · exact fun c hc => compare_buckets_differences s t ie ch hOracle c hc
  · rw [compare_buckets_total_files, compare_buckets_matched_files]
    have hsum : ∑ c ∈ Finset.univ.erase Outcome.matched,
        ((compare_buckets s t ie ch hOracle).differences c).card =
        ∑ c ∈ Finset.univ.erase Outcome.matched, (outcomeSet s t ie ch hOracle c).card :=
      Finset.sum_congr rfl (fun c hc => by
        rw [compare_buckets_differences s t ie ch hOracle c (Finset.mem_erase.1 hc).1])
    have hfib : (all_keys s t).card =
        ∑ c ∈ (Finset.univ : Finset Outcome), (outcomeSet s t ie ch hOracle c).card :=
      Finset.card_eq_sum_card_fiberwise (fun x _ => Finset.mem_univ _)
    rw [hsum, hfib]
    exact Finset.add_sum_erase Finset.univ
      (fun c => (outcomeSet s t ie ch hOracle c).card) (Finset.mem_univ Outcome.matched)

/-- C2 (witness). -/
theorem classification_totals_invariant_witness :
    (compare_buckets ⟨{"a"}, fun _ => ⟨10, "x", 0⟩⟩ ⟨∅, fun _ => ⟨0, "", 0⟩⟩
        false false ⟨fun _ => none, fun _ => none⟩).differences Outcome.size_mismatch =
      outcomeSet ⟨{"a"}, fun _ => ⟨10, "x", 0⟩⟩ ⟨∅, fun _ => ⟨0, "", 0⟩⟩
        false false ⟨fun _ => none, fun _ => none⟩ Outcome.size_mismatch :=
  (classification_totals_invariant ⟨{"a"}, fun _ => ⟨10, "x", 0⟩⟩ ⟨∅, fun _ => ⟨0, "", 0⟩⟩
    false false ⟨fun _ => none, fun _ => none⟩).2.2.1 Outcome.size_mismatch (by decide)

/-- C3: membership in each returned category follows the fixed decision
order of the loop: absent-from-source, then absent-from-target, then size
(taking precedence over tags), then tag (only when `ignore_etags` is false),
then content (only when `compare_hashes` is on and the verifier says false),
else matched. -/
theorem decision_order_characterisation (s t : BucketSnapshot) (ie ch : Bool)
    (hOracle : HashOracle) (k : String) :
    (k ∈ (compare_buckets s t ie ch hOracle).differences Outcome.extra_in_target ↔
      k ∈ t.keys ∧ k ∉ s.keys) ∧
    (k ∈ (compare_buckets s t ie ch hOracle).differences Outcome.missing_in_target ↔
      k ∈ s.keys ∧ k ∉ t.keys) ∧
    (k ∈ (compare_buckets s t ie ch hOracle).differences Outcome.size_mismatch ↔
      k ∈ s.keys ∧ k ∈ t.keys ∧ (s.meta k).size ≠ (t.meta k).size) ∧
    (k ∈ (compare_buckets s t ie ch hOracle).differences Outcome.etag_mismatch ↔
      k ∈ s.keys ∧ k ∈ t.keys ∧ (s.meta k).size = (t.meta k).size ∧
        ie = false ∧ (s.meta k).etag ≠ (t.meta k).etag) ∧
    (k ∈ (compare_buckets s t ie ch hOracle).differences Outcome.content_mismatch ↔
      k ∈ s.keys ∧ k ∈ t.keys ∧ (s.meta k).size = (t.meta k).size ∧
        (ie = true ∨ (s.meta k).etag = (t.meta k).etag) ∧
        ch = true ∧ compare_file_hashes hOracle k = false) ∧
    (classifyKey s t ie ch hOracle k = Outcome.matched ↔
      k ∈ s.keys ∧ k ∈ t.keys ∧ (s.meta k).size = (t.meta k).size ∧
        (ie = true ∨ (s.meta k).etag = (t.meta k).etag) ∧
        (ch = false ∨ compare_file_hashes hOracle k = true)) := by
  have hmem : ∀ c, c ≠ Outcome.matched →
      (k ∈ (compare_buckets s t ie ch hOracle).differences c ↔
        k ∈ all_keys s t ∧ classifyKey s t ie ch hOracle k = c) := by
    intro c hc
    rw [compare_buckets_differences s t ie ch hOracle c hc, outcomeSet, Finset.mem_filter]
  refine ⟨?_, ?_, ?_, ?_, ?_, classifyKey_matched_iff s t ie ch hOracle k⟩
  · rw [hmem _ (by decide), classifyKey_extra_iff, all_keys, Finset.mem_union]
    tauto
  · rw [hmem _ (by decide), classifyKey_missing_iff, all_keys, Finset.mem_union]
    tauto
  · rw [hmem _ (by decide), classifyKey_size_iff, all_keys, Finset.mem_union]
    tauto
  · rw [hmem _ (by decide), classifyKey_etag_iff, all_keys, Finset.mem_union]
    tauto
  · rw [hmem _ (by decide), classifyKey_content_iff, all_keys, Finset.mem_union]
    tauto

/-- C4: classifying with source and target swapped (which also swaps the two
hash streams) swaps the `missing_in_target` and `extra_in_target` categories
and leaves every other category, the matched count, and every per-key
outcome (up to the swap) unchanged. -/
theorem swap_symmetry (s t : BucketSnapshot) (ie ch : Bool) (hOracle : HashOracle)
    (c : Outcome) :
    (compare_buckets t s ie ch (swapOracle hOracle)).differences c =
      (compare_buckets s t ie ch hOracle).differences (swapOutcome c) ∧
    (compare_buckets t s ie ch (swapOracle hOracle)).stats.matched_files =
      (compare_buckets s t ie ch hOracle).stats.matched_files ∧
    ∀ k ∈ all_keys s t,
      classifyKey t s ie ch (swapOracle hOracle) k =
        swapOutcome (classifyKey s t ie ch hOracle k) := by
  refine ⟨?_, ?_, fun k hk => classifyKey_swap s t ie ch hOracle k hk⟩
  · by_cases hc : c = Outcome.matched
    · subst hc
      rw [show swapOutcome Outcome.matched = Outcome.matched from rfl,
        compare_buckets_differences_matched, compare_buckets_differences_matched]
    · have hsc : swapOutcome c ≠ Outcome.matched := fun he =>
        hc ((swapOutcome_eq_matched_iff c).1 he)
      rw [compare_buckets_differences t s ie ch (swapOracle hOracle) c hc,
        compare_buckets_differences s t ie ch hOracle _ hsc]
      exact outcomeSet_swap s t ie ch hOracle c
  · rw [compare_buckets_matched_files, compare_buckets_matched_files,
      outcomeSet_swap s t ie ch hOracle Outcome.matched]
    rfl

/-- C4 (witness). -/
theorem swap_symmetry_witness :
    classifyKey ⟨∅, fun _ => ⟨0, "", 0⟩⟩ ⟨{"a"}, fun _ => ⟨10, "x", 0⟩⟩ false false
        (swapOracle ⟨fun _ => none, fun _ => none⟩) "a" =
      swapOutcome (classifyKey ⟨{"a"}, fun _ => ⟨10, "x", 0⟩⟩ ⟨∅, fun _ => ⟨0, "", 0⟩⟩
        false false ⟨fun _ => none, fun _ => none⟩ "a") :=
  (swap_symmetry ⟨{"a"}, fun _ => ⟨10, "x", 0⟩⟩ ⟨∅, fun _ => ⟨0, "", 0⟩⟩ false false
    ⟨fun _ => none, fun _ => none⟩ Outcome.matched).2.2 "a" (by decide)

/-- C5: the run exits 0 exactly when both listings succeed and every
category other than matched is empty after classification; in every other
case, including a listing failure, it exits 1. -/
theorem exit_status_iff (sp tp : List (Except Unit Page)) (ie ch : Bool)
    (hOracle : HashOracle) :
    (main_run sp tp ie ch hOracle = 0 ∨ main_run sp tp ie ch hOracle = 1) ∧
    (main_run sp tp ie ch hOracle = 0 ↔
      ∃ s0 t0, get_bucket_objects sp = Except.ok s0 ∧
        get_bucket_objects tp = Except.ok t0 ∧
        ∀ c : Outcome, c ≠ Outcome.matched →
          (compare_buckets s0 t0 ie ch hOracle).differences c = ∅) := by
  rcases hgs : get_bucket_objects sp with e | s0
  · cases e
    rw [main_run_error_left sp tp ie ch hOracle hgs]
    refine ⟨Or.inr rfl, ?_, ?_⟩
    · intro h10
      exact absurd h10 one_ne_zero
    · rintro ⟨s0, t0, hs, _, _⟩
      exact Except.noConfusion hs
  · rcases hgt : get_bucket_objects tp with e | t0
    · cases e
      rw [main_run_error_right sp tp ie ch hOracle hgt]
      refine ⟨Or.inr rfl, ?_, ?_⟩
      · intro h10
        exact absurd h10 one_ne_zero
      · rintro ⟨s0', t0', _, ht, _⟩
        exact Except.noConfusion ht
    · rw [main_run_ok sp tp s0 t0 ie ch hOracle hgs hgt]
      by_cases hcond : ∀ c ∈ (compare_buckets s0 t0 ie ch hOracle).touched,
          (compare_buckets s0 t0 ie ch hOracle).differences c = ∅
      · rw [if_pos hcond]
        refine ⟨Or.inl rfl, ?_, fun _ => rfl⟩
        intro _
        exact ⟨s0, t0, rfl, rfl, (not_any_iff s0 t0 ie ch hOracle).1 hcond⟩
      · rw [if_neg hcond]
        refine ⟨Or.inr rfl, ?_, ?_⟩
        · intro h10
          exact absurd h10 one_ne_zero
        · rintro ⟨s0', t0', hs, ht, hall⟩
          injection hs with hs'
          injection ht with ht'
          subst hs'
          subst ht'
          exact absurd ((not_any_iff _ _ ie ch hOracle).2 hall) hcond

/-- C6: an error-free listing is fully drained into a snapshot holding every
listed key; a listing that errors at any point yields the error and no
partial snapshot; and a listing error on either side makes the whole run
exit 1. -/
theorem listing_failure_propagation (pagesOk pre : List Page)
    (tail sp tp : List (Except Unit Page)) (ie ch : Bool) (hOracle : HashOracle) :
    (∃ snap, get_bucket_objects (pagesOk.map Except.ok) = Except.ok snap ∧
        snap.keys = listedKeys pagesOk) ∧
    get_bucket_objects (pre.map Except.ok ++ Except.error () :: tail) =
      Except.error () ∧
    (get_bucket_objects sp = Except.error () → main_run sp tp ie ch hOracle = 1) ∧
    (get_bucket_objects tp = Except.error () → main_run sp tp ie ch hOracle = 1) := by
  refine ⟨⟨pagesOk.foldl processPage emptyObjects, ?_, ?_⟩, ?_, ?_, ?_⟩
  · exact get_bucket_objects_loop_ok pagesOk emptyObjects
  · rw [foldl_processPage_keys]
    exact Finset.empty_union _
  · exact get_bucket_objects_loop_error pre tail emptyObjects
  · exact fun hs => main_run_error_left sp tp ie ch hOracle hs
  · exact fun ht => main_run_error_right sp tp ie ch hOracle ht

/-- C6 (witness). -/
theorem listing_failure_propagation_witness :
    main_run [Except.error ()] [] false false ⟨fun _ => none, fun _ => none⟩ = 1 :=
  (listing_failure_propagation [] [] [] [Except.error ()] [] false false
    ⟨fun _ => none, fun _ => none⟩).2.2.1 rfl

/-- C7: with `ignore_etags` set, the `etag_mismatch` category is always
empty, and a key present on both sides with equal sizes is classified
matched, or content-mismatch only when hash comparison is enabled. -/
theorem ignore_etags_no_tag_mismatch (s t : BucketSnapshot) (ch : Bool)
    (hOracle : HashOracle) (k : String) :
    (compare_buckets s t true ch hOracle).differences Outcome.etag_mismatch = ∅ ∧
    (k ∈ s.keys → k ∈ t.keys → (s.meta k).size = (t.meta k).size →
      (classifyKey s t true ch hOracle k = Outcome.matched ∨
        (ch = true ∧ classifyKey s t true ch hOracle k = Outcome.content_mismatch))) := by
  constructor
  · rw [compare_buckets_differences s t true ch hOracle Outcome.etag_mismatch (by decide),
      outcomeSet, Finset.filter_eq_empty_iff]
    intro x _
    rw [classifyKey_etag_iff]
    rintro ⟨_, _, _, hie, _⟩
    exact Bool.noConfusion hie
  · intro hks hkt hsz
    cases hch : ch
    · left
      exact (classifyKey_matched_iff s t true false hOracle k).2
        ⟨hks, hkt, hsz, Or.inl rfl, Or.inl rfl⟩
    · cases hcf : compare_file_hashes hOracle k
      · right
        exact ⟨rfl, (classifyKey_content_iff s t true true hOracle k).2
          ⟨hks, hkt, hsz, Or.inl rfl, rfl, hcf⟩⟩
      · left
        exact (classifyKey_matched_iff s t true true hOracle k).2
          ⟨hks, hkt, hsz, Or.inl rfl, Or.inr hcf⟩

/-- C7 (witness). -/
theorem ignore_etags_no_tag_mismatch_witness :
    (compare_buckets ⟨{"a"}, fun _ => ⟨10, "x", 0⟩⟩ ⟨{"a"}, fun _ => ⟨10, "y", 0⟩⟩
        true false ⟨fun _ => none, fun _ => none⟩).differences Outcome.etag_mismatch = ∅ ∧
    (classifyKey ⟨{"a"}, fun _ => ⟨10, "x", 0⟩⟩ ⟨{"a"}, fun _ => ⟨10, "y", 0⟩⟩
        true false ⟨fun _ => none, fun _ => none⟩ "a" = Outcome.matched ∨
      (false = true ∧ classifyKey ⟨{"a"}, fun _ => ⟨10, "x", 0⟩⟩
        ⟨{"a"}, fun _ => ⟨10, "y", 0⟩⟩ true false ⟨fun _ => none, fun _ => none⟩ "a" =
          Outcome.content_mismatch)) :=
  ⟨(ignore_etags_no_tag_mismatch ⟨{"a"}, fun _ => ⟨10, "x", 0⟩⟩
      ⟨{"a"}, fun _ => ⟨10, "y", 0⟩⟩ false ⟨fun _ => none, fun _ => none⟩ "a").1,
   (ignore_etags_no_tag_mismatch ⟨{"a"}, fun _ => ⟨10, "x", 0⟩⟩
      ⟨{"a"}, fun _ => ⟨10, "y", 0⟩⟩ false ⟨fun _ => none, fun _ => none⟩ "a").2
      (by decide) (by decide) rfl⟩

/-- C8: the returned differences dict holds an entry for a category exactly
when that category's key set is non-empty; categories with no differing keys
are absent. -/
theorem differences_entries_nonempty (s t : BucketSnapshot) (ie ch : Bool)
    (hOracle : HashOracle) (c : Outcome) :
    c ∈ (compare_buckets s t ie ch hOracle).touched ↔
      ((compare_buckets s t ie ch hOracle).differences c).Nonempty := by
  rw [compare_buckets_touched]
  by_cases hc : c = Outcome.matched
  · subst hc
    rw [compare_buckets_differences_matched]
    simp
  · rw [compare_buckets_differences s t ie ch hOracle c hc]
    simp [hc]

/-- C9: when the MD5 computation fails on both sides,
`_compare_file_hashes` returns false (the None-guard fires before the
equality test), and with hash comparison enabled such a key is never
classified matched. -/
theorem double_hash_failure_not_matched (hOracle : HashOracle) (k : String)
    (hs : hOracle.sourceHash k = none) (_ht : hOracle.targetHash k = none) :
    compare_file_hashes hOracle k = false ∧
    ∀ (s t : BucketSnapshot) (ie : Bool),
      classifyKey s t ie true hOracle k ≠ Outcome.matched := by
  have hfc : compare_file_hashes hOracle k = false := by
    simp [compare_file_hashes, hs]
  refine ⟨hfc, ?_⟩
  intro s t ie hm
  rw [classifyKey_matched_iff] at hm
  rcases hm with ⟨_, _, _, _, hch | hcf⟩
  · exact Bool.noConfusion hch
  · rw [hfc] at hcf
    exact Bool.noConfusion hcf

/-- C9 (witness). -/
theorem double_hash_failure_not_matched_witness :
    compare_file_hashes ⟨fun _ => none, fun _ => none⟩ "k" = false :=
  (double_hash_failure_not_matched ⟨fun _ => none, fun _ => none⟩ "k" rfl rfl).1

/-- C10: a listing whose pages all lack a `Contents` entry (an empty bucket)
is processed without error and yields the empty mapping. -/
theorem contentless_pages_skipped :
    ∀ (pages : List (Except Unit Page)),
      (∀ p ∈ pages, p = Except.ok ⟨none⟩) →
      get_bucket_objects pages = Except.ok emptyObjects := by
  intro pages
  unfold get_bucket_objects
  induction pages with
  | nil => intro _; rfl
  | cons p rest ih =>
    intro hp
    have hp0 : p = Except.ok ⟨none⟩ := hp p (List.mem_cons_self p rest)
    subst hp0
    exact ih (fun q hq => hp q (List.mem_cons_of_mem _ hq))

/-- C10 (witness). -/
theorem contentless_pages_skipped_witness :
    get_bucket_objects [Except.ok ⟨none⟩, Except.ok ⟨none⟩] = Except.ok emptyObjects :=
  contentless_pages_skipped [Except.ok ⟨none⟩, Except.ok ⟨none⟩] (by
    intro p hp
    rcases List.mem_cons.1 hp with rfl | hp2
    · rfl
    · rcases List.mem_cons.1 hp2 with rfl | hp3
      · rfl
      · exact absurd hp3 (List.not_mem_nil p))

end S3Compare
